import Mathlib

/-!
# Verification of the `kroos` heap-cell library

A shallow embedding of the two heap-allocation primitives of the `kroos`
crate — the unique cell `Flake` (src/flake.rs) and the reference-counted
shared cell `Rime` (src/rime.rs) — together with the counter strategies
(`Counter` impls for plain unsigned integers, `Cell`-wrapped integers and
atomic unsigned integers).

Machine addresses and bytes are modelled as `Nat`; fixed-width arithmetic
is made explicit with `% 2 ^ w`.  Heap memory is a byte map together with a
bump allocator; a counter object stored at the front of a shared block is
modelled in a separate map keyed by its address (the counter occupies the
bytes `[block, block + cSize)`, disjoint from the payload bytes, so the two
footprints never interact).  A panic (from `checked_add` / `checked_sub`
via `expect`) is modelled as `Option.none`.
-/

namespace Kroos

/-! ## Layouts (`std::alloc::Layout`) -/

/-- A `std::alloc::Layout`: a size and an alignment in bytes. -/
structure Layout where
  size : Nat
  align : Nat
deriving DecidableEq, Repr

/-- Round `n` up to the next multiple of `a` (alignment rounding).  Rust
alignments are always ≥ 1; the `a = 0` branch is a benign totalisation. -/
def alignUp (n a : Nat) : Nat :=
  if a = 0 then n else ((n + a - 1) / a) * a

/-! ## Byte-addressable memory with a bump allocator -/

/-- The heap: a bump pointer `next` (all addresses below it are in use or
were handed out), the byte contents of memory, and the counter objects
stored at block heads (`counters a` is the value of the counter object
whose first byte sits at address `a`). -/
structure Mem where
  next : Nat
  bytes : Nat → Nat
  counters : Nat → Nat

/-- `alloc(layout)`: the allocator returns a fresh block aligned to
`layout.align`; the bump pointer moves past it. -/
def Mem.alloc (m : Mem) (l : Layout) : Nat × Mem :=
  let addr := alignUp m.next l.align
  (addr, { m with next := addr + l.size })

/-- The byte map after `copy_nonoverlapping(src, dst, len)`. -/
def copyBytes (f : Nat → Nat) (src dst len : Nat) : Nat → Nat :=
  fun a => if dst ≤ a ∧ a < dst + len then f (src + (a - dst)) else f a

/-- `copy_nonoverlapping(src, dst, len)` on the heap. -/
def Mem.copy (m : Mem) (src dst len : Nat) : Mem :=
  { m with bytes := copyBytes m.bytes src dst len }

/-- Read `len` consecutive bytes starting at `addr`. -/
def Mem.readBytes (m : Mem) (addr len : Nat) : List Nat :=
  (List.range len).map fun i => m.bytes (addr + i)

/-- `write(counter_ptr, c)`: store a counter object at address `a`. -/
def Mem.writeCounter (m : Mem) (a v : Nat) : Mem :=
  { m with counters := fun x => if x = a then v else m.counters x }

/-! ## `Flake<T>` (src/flake.rs) -/

/-- The unique cell: a wide pointer `inner_ptr`, modelled as the data
address plus its metadata word (a length for slice-like payloads). -/
structure Flake where
  inner_addr : Nat
  inner_meta : Nat
deriving DecidableEq, Repr

namespace Flake

/-- `Flake::new(value)`: `Layout::for_value(value)` (the referent's runtime
size `len` and alignment `align`), `alloc`, `copy_nonoverlapping` of `len`
bytes from the referent at `src`, then `from_raw_parts(raw, metadata(value))`.
The allocation-failure branch (`handle_alloc_error`) aborts and yields no
cell, so it does not appear in the state transformer. -/
def new (m : Mem) (src len align meta : Nat) : Flake × Mem :=
  let p := m.alloc ⟨len, align⟩
  let m2 := p.2.copy src p.1 len
  (⟨p.1, meta⟩, m2)

/-- `impl PartialEq for Flake`: `addr_eq(self.inner_ptr, other.inner_ptr)` —
address comparison only, metadata ignored. -/
def beq (a b : Flake) : Bool :=
  a.inner_addr == b.inner_addr

end Flake

/-! ## `Rime<C, T>` (src/rime.rs) -/

/-- The shared cell: a pointer to the counter and a wide pointer to the
payload (address plus metadata).  The `PhantomData` marker is zero-sized
and carries no state. -/
structure Rime where
  counter_addr : Nat
  inner_addr : Nat
  inner_meta : Nat
deriving DecidableEq, Repr

namespace Rime

/-- `Rime::steal(value)` for a sized payload whose bytes are `value` (with
`tAlign = align_of::<T>()`): layout `⟨size_of::<T>() + c_size,
max(align_of::<C>(), align_of::<T>())⟩`, `alloc`, `write(counter_ptr,
C::new())` at the block head, `write(data_ptr, value)` at `raw.add(c_size)`.
`C::new()` is `1` for every provided counter. -/
def steal (cSize cAlign tAlign : Nat) (m : Mem) (value : List Nat) : Rime × Mem :=
  let layout : Layout := ⟨value.length + cSize, max cAlign tAlign⟩
  let p := m.alloc layout
  let m2 := p.2.writeCounter p.1 1
  let dataAddr := p.1 + cSize
  let m3 : Mem :=
    { m2 with bytes := fun a =>
        if dataAddr ≤ a ∧ a < dataAddr + value.length
        then value.getD (a - dataAddr) 0 else m2.bytes a }
  (⟨p.1, dataAddr, 0⟩, m3)

/-- `Rime::new(value)` for a referent at address `src` with runtime size
`tSize`, alignment `tAlign` and metadata `meta`: layout `⟨c_size + t_size,
max(align_of::<C>(), align_of_val(value))⟩`, `alloc`, `write(counter_ptr,
C::new())`, `copy_nonoverlapping` of the payload bytes to `raw.add(c_size)`,
then `from_raw_parts(counter_ptr, inner_ptr, metadata(value))`. -/
def new (cSize cAlign : Nat) (m : Mem) (src tSize tAlign meta : Nat) : Rime × Mem :=
  let layout : Layout := ⟨cSize + tSize, max cAlign tAlign⟩
  let p := m.alloc layout
  let m2 := p.2.writeCounter p.1 1
  let innerAddr := p.1 + cSize
  let m3 := m2.copy src innerAddr tSize
  (⟨p.1, innerAddr, meta⟩, m3)

/-- `impl Clone for Rime`: `(*self.counter_ptr).increment()`, then both
pointers (and the marker) are copied into the new handle.  The counter
strategy's increment is the parameter `inc`. -/
def clone (inc : Nat → Nat) (m : Mem) (r : Rime) : Rime × Mem :=
  let m2 : Mem :=
    { m with counters := fun a =>
        if a = r.counter_addr then inc (m.counters a) else m.counters a }
  (⟨r.counter_addr, r.inner_addr, r.inner_meta⟩, m2)

/-- `impl From<&Rime<C, T>> for Rime<C, T>`: `value.clone()`. -/
def fromRef (inc : Nat → Nat) (m : Mem) (r : Rime) : Rime × Mem :=
  clone inc m r

/-- `impl PartialEq for Rime`: `addr_eq(self.inner_ptr, other.inner_ptr)` —
payload address comparison only. -/
def beq (a b : Rime) : Bool :=
  a.inner_addr == b.inner_addr

end Rime

/-! ## Counter strategies (src/rime.rs, `Counter` impls)

A fixed-width unsigned value is a `Nat` below `2 ^ w`; the widths the
library instantiates are 8, 16, 32, 64, 128 (plain and `Cell`) and
8, 16, 32, 64 plus the word width (atomics).  A counter operation that
panics (via `expect` on `checked_add` / `checked_sub`) returns `none`. -/

/-- `impl Counter for $t` (`u8`, …, `u128`, `usize`): `fn new() -> Self { 1 }`. -/
def primNew : Nat := 1

/-- `impl Counter for $t`: `*self += 1` — unchecked; wraps at the width. -/
def primIncrement (w v : Nat) : Nat :=
  (v + 1) % 2 ^ w

/-- `impl Counter for $t`: `*self -= 1; *self == 0` — unchecked decrement
(wrapping at the width) followed by a zero test; returns the new stored
value and the `bool` result. -/
def primDecrement (w v : Nat) : Nat × Bool :=
  let v2 := (v + (2 ^ w - 1)) % 2 ^ w
  (v2, v2 == 0)

/-- `impl Counter for Cell<$t>`: `Cell::new(1)`. -/
def cellNew : Nat := 1

/-- `impl Counter for Cell<$t>`:
`self.set(self.get().checked_add(1).expect("RefCount overflow"))` —
`none` is the overflow panic. -/
def cellIncrement (w v : Nat) : Option Nat :=
  if v + 1 < 2 ^ w then some (v + 1) else none

/-- `impl Counter for Cell<$t>`:
`let value = self.get().checked_sub(1).expect("RefCount underflow");
self.set(value); value == 0` — `none` is the underflow panic. -/
def cellDecrement (v : Nat) : Option (Nat × Bool) :=
  if v = 0 then none else some (v - 1, v - 1 == 0)

/-- The memory orderings of `std::sync::atomic`. -/
inductive MemOrder
  | relaxed
  | release
  | acquire
  | acqrel
  | seqcst
deriving DecidableEq, Repr

/-- The synchronisation actions an atomic counter operation performs: the
ordering passed to its read-modify-write instruction and the orderings of
any fences it executes afterwards. -/
structure SyncTrace where
  rmwOrder : MemOrder
  fences : List MemOrder
deriving DecidableEq, Repr

/-- `impl Counter for $atomic` (`AtomicU8`, …, `AtomicU64`, `AtomicUsize`):
`<$atomic>::new(1)`. -/
def atomicNew : Nat := 1

/-- `impl Counter for $atomic`: `self.fetch_add(1, Ordering::Relaxed)` —
wrapping add; no fence.  Returns the new stored value and the trace. -/
def atomicIncrement (w v : Nat) : Nat × SyncTrace :=
  ((v + 1) % 2 ^ w, ⟨.relaxed, []⟩)

/-- `impl Counter for $atomic`:
`if self.fetch_sub(1, Ordering::Release) == 1 { fence(Ordering::Acquire);
true } else { false }` — the wrapping subtraction uses release ordering and
yields the old value; exactly when that old value is 1 an acquire fence
runs and `true` is returned.  Returns the new stored value, the `bool`
result and the trace. -/
def atomicDecrement (w v : Nat) : Nat × Bool × SyncTrace :=
  if v == 1 then
    ((v + (2 ^ w - 1)) % 2 ^ w, true, ⟨.release, [.acquire]⟩)
  else
    ((v + (2 ^ w - 1)) % 2 ^ w, false, ⟨.release, []⟩)

/-! ## Per-block handle accounting (`Clone` and `Drop` for `Rime`)

One shared block whose counter type is `w` bits wide, watched over the
sequence of handle operations performed after its constructor returned:
`Clone::clone` increments the counter through the counter pointer and adds
a live handle; `Drop::drop` removes a live handle, decrements the counter,
and deallocates the block exactly when the decrement reports zero.  The
plain and atomic counter families are unchecked fixed-width integers, so
both counter updates wrap at `2 ^ w`; their zero reports — the plain
`*self == 0` on the stored value and the atomic `old == 1` on the previous
value — coincide on every in-range value.  An operation is only possible
while some handle is live; nothing in the code prevents cloning past the
counter's capacity. -/

/-- A handle operation on one shared block. -/
inductive RcOp
  | clone
  | drop
deriving DecidableEq, Repr

/-- Observed state of one shared block: the stored counter value, the
number of live handles, and how many times the block has been deallocated. -/
structure BlockState where
  counter : Nat
  handles : Nat
  deallocs : Nat
deriving DecidableEq, Repr

/-- The block right after a constructor (`steal` / `new` / …) returned:
`write(counter_ptr, C::new())` stored 1 and produced the first handle. -/
def initBlock : BlockState := ⟨1, 1, 0⟩

/-- One handle operation at counter width `w`.  `clone`:
`(*self.counter_ptr).increment()` — the wrapping add of the plain and
atomic families stores `(counter + 1) % 2 ^ w` — and a new handle.
`drop`: one handle gone; `(*self.counter_ptr).decrement()` stores the
wrapping predecessor `(counter + (2 ^ w - 1)) % 2 ^ w` and reports `true`
iff that stored value is zero (equal, in range, to the atomic `old == 1`
report), in which case `dealloc` runs on the block. -/
def stepBlock (w : Nat) (s : BlockState) : RcOp → BlockState
  | .clone => ⟨(s.counter + 1) % 2 ^ w, s.handles + 1, s.deallocs⟩
  | .drop =>
    ⟨(s.counter + (2 ^ w - 1)) % 2 ^ w, s.handles - 1,
     if (s.counter + (2 ^ w - 1)) % 2 ^ w = 0 then s.deallocs + 1
     else s.deallocs⟩

/-- Run a sequence of handle operations from a block state. -/
def runBlock (w : Nat) (s : BlockState) : List RcOp → BlockState
  | [] => s
  | op :: rest => runBlock w (stepBlock w s op) rest

/-- A sequence of handle operations is possible as soon as a live handle
exists to perform each of them — this is all the code requires; in
particular overflowing clones are possible. -/
def validOps (w : Nat) (s : BlockState) : List RcOp → Bool
  | [] => true
  | op :: rest => decide (0 < s.handles) && validOps w (stepBlock w s op) rest

/-- The documented caller contract for the unchecked counter families:
every operation is performed by a live handle, and no clone pushes the
live-handle count up to the counter's capacity `2 ^ w`. -/
def withinWidth (w : Nat) (s : BlockState) : List RcOp → Bool
  | [] => true
  | op :: rest =>
    (decide (0 < s.handles)
      && (match op with
          | .clone => decide (s.handles + 1 < 2 ^ w)
          | .drop => true))
    && withinWidth w (stepBlock w s op) rest

/-! ## Destruction effects (`Drop` impls and `Flake::drop_inner`)

What each destruction-related routine does to the outside world: whether it
frees the cell's block, and whether it runs the payload value's own
destructor (`drop_in_place`). -/

/-- An externally visible action of a destruction routine. -/
inductive Effect
  | deallocBlock
  | runPayloadDtor
deriving DecidableEq, Repr

/-- `impl Drop for Flake`: `dealloc(self.inner_ptr as *mut u8,
Layout::for_value(&*self.inner_ptr))` — it frees the block and calls
nothing else; in particular no `drop_in_place`. -/
def flakeDropEffects : List Effect := [.deallocBlock]

/-- `Flake::drop_inner`: `drop_in_place(self.inner_ptr.cast_mut())` — runs
the payload's destructor in place and frees nothing. -/
def flakeDropInnerEffects : List Effect := [.runPayloadDtor]

/-- `impl Drop for Rime` with stored counter value `c`:
`if (*self.counter_ptr).decrement() { dealloc(...) }` — the decrement
stores `c - 1`, and exactly when that is zero the block is freed.  No
`drop_in_place` on either branch.  Returns the new counter value and the
effects. -/
def rimeDrop (c : Nat) : Nat × List Effect :=
  (c - 1, if c - 1 = 0 then [.deallocBlock] else [])

/-! ## Statement-side definitions -/

/-- The payload offset as the specification's layout invariant words it:
`size_of::<C>()` rounded up to the payload's alignment.  To be compared
with the offset the constructors actually use (`raw.add(c_size)`). -/
def claimedPayloadOffset (cSize tAlign : Nat) : Nat :=
  alignUp cSize tAlign

/-- A concrete heap for witnesses and counterexamples: the bump pointer is
at 4 (addresses 0–3 hold existing data) and byte `a` holds `a % 256`. -/
def memA : Mem := ⟨4, fun a => a % 256, fun _ => 0⟩

/-! ## Supporting lemmas -/

theorem le_alignUp (n a : Nat) : n ≤ alignUp n a := by
  unfold alignUp
  split
  · exact Nat.le_refl n
  next h =>
    have ha : 0 < a := Nat.pos_of_ne_zero h
    have hdm : a * ((n + a - 1) / a) + (n + a - 1) % a = n + a - 1 :=
      Nat.div_add_mod _ _
    have hmod : (n + a - 1) % a < a := Nat.mod_lt _ ha
    have hcomm : (n + a - 1) / a * a = a * ((n + a - 1) / a) := Nat.mul_comm _ _
    rw [hcomm]
    omega

/-- Reading the copy's destination yields the source's (pre-copy) bytes. -/
theorem readBytes_copy_target (m : Mem) (src dst len : Nat) :
    (m.copy src dst len).readBytes dst len = m.readBytes src len := by
  unfold Mem.copy Mem.readBytes copyBytes
  apply List.map_congr_left
  intro i hi
  have hlt : i < len := List.mem_range.mp hi
  have hc : dst ≤ dst + i ∧ dst + i < dst + len := by omega
  simp only [hc, and_self, if_pos]
  congr 1
  omega

/-- A copy leaves every byte range disjoint from its destination unchanged. -/
theorem readBytes_copy_disjoint (m : Mem) (src dst len p n : Nat)
    (h : p + n ≤ dst ∨ dst + len ≤ p) :
    (m.copy src dst len).readBytes p n = m.readBytes p n := by
  unfold Mem.copy Mem.readBytes copyBytes
  apply List.map_congr_left
  intro i hi
  have hlt : i < n := List.mem_range.mp hi
  have hc : ¬ (dst ≤ p + i ∧ p + i < dst + len) := by omega
  simp only [hc, if_neg, if_false]

/-- Storing a counter object does not touch the byte map. -/
theorem readBytes_writeCounter (m : Mem) (a v p n : Nat) :
    (m.writeCounter a v).readBytes p n = m.readBytes p n := rfl

theorem flake_new_fst (m : Mem) (src len align meta : Nat) :
    (Flake.new m src len align meta).1 = ⟨alignUp m.next align, meta⟩ := rfl

theorem flake_new_next (m : Mem) (src len align meta : Nat) :
    (Flake.new m src len align meta).2.next = alignUp m.next align + len := rfl

/-- The payload bytes of a fresh unique cell are the source's bytes. -/
theorem flake_new_read_target (m : Mem) (src len align meta : Nat) :
    (Flake.new m src len align meta).2.readBytes (alignUp m.next align) len
      = m.readBytes src len :=
  readBytes_copy_target { m with next := alignUp m.next align + len } src
    (alignUp m.next align) len

/-- `Flake::new` leaves every byte range below its fresh block unchanged. -/
theorem flake_new_read_frame (m : Mem) (src len align meta p n : Nat)
    (h : p + n ≤ alignUp m.next align) :
    (Flake.new m src len align meta).2.readBytes p n = m.readBytes p n :=
  readBytes_copy_disjoint { m with next := alignUp m.next align + len } src
    (alignUp m.next align) len p n (Or.inl h)

theorem rime_new_fst (cSize cAlign : Nat) (m : Mem) (src tSize tAlign meta : Nat) :
    (Rime.new cSize cAlign m src tSize tAlign meta).1
      = ⟨alignUp m.next (max cAlign tAlign),
         alignUp m.next (max cAlign tAlign) + cSize, meta⟩ := rfl

theorem rime_new_next (cSize cAlign : Nat) (m : Mem) (src tSize tAlign meta : Nat) :
    (Rime.new cSize cAlign m src tSize tAlign meta).2.next
      = alignUp m.next (max cAlign tAlign) + (cSize + tSize) := rfl

/-- The payload bytes of a fresh shared cell are the source's bytes. -/
theorem rime_new_read_target (cSize cAlign : Nat) (m : Mem) (src tSize tAlign meta : Nat) :
    (Rime.new cSize cAlign m src tSize tAlign meta).2.readBytes
        (alignUp m.next (max cAlign tAlign) + cSize) tSize
      = m.readBytes src tSize :=
  readBytes_copy_target
    (Mem.writeCounter
      { m with next := alignUp m.next (max cAlign tAlign) + (cSize + tSize) }
      (alignUp m.next (max cAlign tAlign)) 1)
    src (alignUp m.next (max cAlign tAlign) + cSize) tSize

/-- `Rime::new` leaves every byte range below its payload region unchanged. -/
theorem rime_new_read_frame (cSize cAlign : Nat) (m : Mem) (src tSize tAlign meta p n : Nat)
    (h : p + n ≤ alignUp m.next (max cAlign tAlign) + cSize) :
    (Rime.new cSize cAlign m src tSize tAlign meta).2.readBytes p n
      = m.readBytes p n :=
  readBytes_copy_disjoint
    (Mem.writeCounter
      { m with next := alignUp m.next (max cAlign tAlign) + (cSize + tSize) }
      (alignUp m.next (max cAlign tAlign)) 1)
    src (alignUp m.next (max cAlign tAlign) + cSize) tSize p n (Or.inl h)

theorem rime_steal_fst (cSize cAlign tAlign : Nat) (m : Mem) (value : List Nat) :
    (Rime.steal cSize cAlign tAlign m value).1
      = ⟨alignUp m.next (max cAlign tAlign),
         alignUp m.next (max cAlign tAlign) + cSize, 0⟩ := rfl

theorem rime_steal_next (cSize cAlign tAlign : Nat) (m : Mem) (value : List Nat) :
    (Rime.steal cSize cAlign tAlign m value).2.next
      = alignUp m.next (max cAlign tAlign) + (value.length + cSize) := rfl

theorem flake_new_addr (m : Mem) (src len align meta : Nat) :
    (Flake.new m src len align meta).1.inner_addr = alignUp m.next align := rfl

theorem flake_new_meta (m : Mem) (src len align meta : Nat) :
    (Flake.new m src len align meta).1.inner_meta = meta := rfl

theorem rime_new_counter_addr (cSize cAlign : Nat) (m : Mem) (src tSize tAlign meta : Nat) :
    (Rime.new cSize cAlign m src tSize tAlign meta).1.counter_addr
      = alignUp m.next (max cAlign tAlign) := rfl

theorem rime_new_inner_addr (cSize cAlign : Nat) (m : Mem) (src tSize tAlign meta : Nat) :
    (Rime.new cSize cAlign m src tSize tAlign meta).1.inner_addr
      = alignUp m.next (max cAlign tAlign) + cSize := rfl

theorem rime_new_meta (cSize cAlign : Nat) (m : Mem) (src tSize tAlign meta : Nat) :
    (Rime.new cSize cAlign m src tSize tAlign meta).1.inner_meta = meta := rfl

/-- The wrapping predecessor of a value in range: `2 ^ w - 1` at zero,
otherwise one less. -/
theorem wrapPred (w v : Nat) (hv : v < 2 ^ w) :
    (v + (2 ^ w - 1)) % 2 ^ w = if v = 0 then 2 ^ w - 1 else v - 1 := by
  have hpos : 0 < 2 ^ w := Nat.two_pow_pos w
  by_cases h0 : v = 0
  · subst h0
    rw [if_pos rfl, Nat.zero_add]
    exact Nat.mod_eq_of_lt (by omega)
  · rw [if_neg h0]
    have hsplit : v + (2 ^ w - 1) = (v - 1) + 2 ^ w := by omega
    rw [hsplit, Nat.add_mod_right]
    exact Nat.mod_eq_of_lt (by omega)

/-- The stored value after an atomic decrement, independent of the branch. -/
theorem atomicDecrement_val (w v : Nat) :
    (atomicDecrement w v).1 = (v + (2 ^ w - 1)) % 2 ^ w := by
  unfold atomicDecrement
  split <;> rfl

/-- The fences an atomic decrement executes: an acquire fence exactly when
the old value was 1. -/
theorem atomicDecrement_fences (w v : Nat) :
    (atomicDecrement w v).2.2.fences
      = if v = 1 then [MemOrder.acquire] else [] := by
  unfold atomicDecrement
  by_cases h : v = 1
  · subst h
    rfl
  · rw [if_neg (by simpa using h), if_neg h]

/-- The boolean an atomic decrement returns: `true` exactly when the old
value was 1. -/
theorem atomicDecrement_flag (w v : Nat) :
    (atomicDecrement w v).2.1 = if v = 1 then true else false := by
  unfold atomicDecrement
  by_cases h : v = 1
  · subst h
    rfl
  · rw [if_neg (by simpa using h), if_neg h]

/-- The block invariant — counter equals live handles (so it never wraps),
the handle count stays below the width's capacity, and the count of
deallocations is 1 after the last handle is gone and 0 before — is
preserved along every operation sequence obeying the caller contract. -/
theorem runBlock_inv (w : Nat) (ops : List RcOp) (s : BlockState)
    (hv : withinWidth w s ops = true)
    (hc : s.counter = s.handles)
    (hb : s.handles < 2 ^ w)
    (hd : s.deallocs = if s.handles = 0 then 1 else 0) :
    (runBlock w s ops).counter = (runBlock w s ops).handles
    ∧ (runBlock w s ops).handles < 2 ^ w
    ∧ (runBlock w s ops).deallocs
        = if (runBlock w s ops).handles = 0 then 1 else 0 := by
  induction ops generalizing s with
  | nil => exact ⟨hc, hb, hd⟩
  | cons op rest ih =>
    simp only [withinWidth, Bool.and_eq_true, decide_eq_true_eq] at hv
    obtain ⟨⟨hpos, hop⟩, hv2⟩ := hv
    have hne : s.handles ≠ 0 := Nat.pos_iff_ne_zero.mp hpos
    have hd0 : s.deallocs = 0 := by rw [hd, if_neg hne]
    show (runBlock w (stepBlock w s op) rest).counter = _ ∧ _
    apply ih (stepBlock w s op) hv2
    · cases op with
      | clone =>
        have hbnd : s.handles + 1 < 2 ^ w := by
          simpa using hop
        simp only [stepBlock]
        rw [hc]
        exact Nat.mod_eq_of_lt hbnd
      | drop =>
        have hcw : s.counter < 2 ^ w := by omega
        simp only [stepBlock]
        rw [wrapPred w s.counter hcw, if_neg (by omega : ¬ s.counter = 0)]
        omega
    · cases op with
      | clone =>
        have hbnd : s.handles + 1 < 2 ^ w := by
          simpa using hop
        simpa [stepBlock] using hbnd
      | drop =>
        simp only [stepBlock]
        omega
    · cases op with
      | clone =>
        simp only [stepBlock]
        rw [if_neg (Nat.succ_ne_zero s.handles)]
        exact hd0
      | drop =>
        have hcw : s.counter < 2 ^ w := by omega
        simp only [stepBlock]
        rw [wrapPred w s.counter hcw, if_neg (by omega : ¬ s.counter = 0)]
        split_ifs <;> omega

/-! ## The claims -/

/-- **C1**: for every payload (a referent of `len` bytes at a valid address
`src`, with any alignment and metadata), `Flake::new` and `Rime::new`
produce a handle whose dereferenced payload is byte-for-byte equal to the
referent — the `len` bytes at the new payload address equal the `len` bytes
at `src`, and the stored metadata is the referent's metadata. -/
theorem C1_byte_fidelity (m : Mem) (src len align meta cSize cAlign tAlign : Nat)
    (hsrc : src + len ≤ m.next) :
    ((Flake.new m src len align meta).2.readBytes
        (Flake.new m src len align meta).1.inner_addr len
      = (Flake.new m src len align meta).2.readBytes src len
     ∧ (Flake.new m src len align meta).1.inner_meta = meta)
    ∧ ((Rime.new cSize cAlign m src len tAlign meta).2.readBytes
        (Rime.new cSize cAlign m src len tAlign meta).1.inner_addr len
      = (Rime.new cSize cAlign m src len tAlign meta).2.readBytes src len
     ∧ (Rime.new cSize cAlign m src len tAlign meta).1.inner_meta = meta) := by
  constructor
  · refine ⟨?_, rfl⟩
    rw [flake_new_addr, flake_new_read_target,
        flake_new_read_frame m src len align meta src len
          (Nat.le_trans hsrc (le_alignUp m.next align))]
  · refine ⟨?_, rfl⟩
    rw [rime_new_inner_addr, rime_new_read_target,
        rime_new_read_frame cSize cAlign m src len tAlign meta src len
          (Nat.le_trans hsrc (Nat.le_trans (le_alignUp m.next (max cAlign tAlign))
            (Nat.le_add_right _ cSize)))]

/-- Witness for C1 on the concrete heap `memA`: the 3-byte referent at
address 0. -/
theorem C1_byte_fidelity_holds :
    0 + 3 ≤ memA.next
    ∧ (((Flake.new memA 0 3 1 7).2.readBytes
          (Flake.new memA 0 3 1 7).1.inner_addr 3
        = (Flake.new memA 0 3 1 7).2.readBytes 0 3
       ∧ (Flake.new memA 0 3 1 7).1.inner_meta = 7)
      ∧ ((Rime.new 1 1 memA 0 3 1 7).2.readBytes
          (Rime.new 1 1 memA 0 3 1 7).1.inner_addr 3
        = (Rime.new 1 1 memA 0 3 1 7).2.readBytes 0 3
       ∧ (Rime.new 1 1 memA 0 3 1 7).1.inner_meta = 7)) :=
  ⟨by decide, C1_byte_fidelity memA 0 3 1 7 1 1 1 (by decide)⟩

/-- **C2** as stated is false on the code: the constructors place the
payload at offset exactly `size_of::<C>()`, not at `size_of::<C>()` rounded
up to the payload's alignment.  Concretely, for `C` of size 1 and a payload
of alignment 2, `Rime::new` yields a payload pointer at counter address
plus 1, while the claimed offset `align_up(1, 2)` is 2. -/
theorem C2_layout_counterexample :
    ¬ ((Rime.new 1 1 memA 0 2 2 0).1.inner_addr
        = (Rime.new 1 1 memA 0 2 2 0).1.counter_addr
          + claimedPayloadOffset 1 2) := by
  decide

/-- **C2** (amended): for every shared cell built by `Rime::steal` or
`Rime::new`, the counter sits at offset 0 of the fresh block (its address
is the allocator's result, aligned to the maximum of the two alignments)
and the payload sits at offset exactly `size_of::<C>()`; the block's size
is `size_of::<C>() + size_of_val(payload)`, which covers the counter and
the payload laid out at those offsets. -/
theorem C2_layout_amended (cSize cAlign tAlign tSize src meta : Nat) (m : Mem)
    (value : List Nat) :
    ((Rime.new cSize cAlign m src tSize tAlign meta).1.counter_addr
        = alignUp m.next (max cAlign tAlign)
     ∧ (Rime.new cSize cAlign m src tSize tAlign meta).1.inner_addr
        = (Rime.new cSize cAlign m src tSize tAlign meta).1.counter_addr + cSize
     ∧ (Rime.new cSize cAlign m src tSize tAlign meta).2.next
        = (Rime.new cSize cAlign m src tSize tAlign meta).1.counter_addr
          + (cSize + tSize))
    ∧ ((Rime.steal cSize cAlign tAlign m value).1.counter_addr
        = alignUp m.next (max cAlign tAlign)
     ∧ (Rime.steal cSize cAlign tAlign m value).1.inner_addr
        = (Rime.steal cSize cAlign tAlign m value).1.counter_addr + cSize
     ∧ (Rime.steal cSize cAlign tAlign m value).2.next
        = (Rime.steal cSize cAlign tAlign m value).1.counter_addr
          + (value.length + cSize)) :=
  ⟨⟨rfl, rfl, rfl⟩, ⟨rfl, rfl, rfl⟩⟩

set_option maxRecDepth 8192 in
/-- **C3** as stated is false on the code: with the 8-bit counter
(`C = u8` or `AtomicU8`), 255 clones after construction form a possible,
panic-free operation sequence whose final state has 256 live handles while
the wrapping counter stores `(1 + 255) % 2 ^ 8 = 0` — the counter neither
equals the live-handle count nor stays strictly positive while handles
exist. -/
theorem C3_counter_accounting_counterexample :
    validOps 8 initBlock (List.replicate 255 RcOp.clone) = true
    ∧ ¬ ((runBlock 8 initBlock (List.replicate 255 RcOp.clone)).counter
          = (runBlock 8 initBlock (List.replicate 255 RcOp.clone)).handles)
    ∧ ¬ (0 < (runBlock 8 initBlock (List.replicate 255 RcOp.clone)).handles →
          0 < (runBlock 8 initBlock (List.replicate 255 RcOp.clone)).counter) := by
  refine ⟨by decide, by decide, by decide⟩

/-- **C3** (amended): along every sequence of clone and drop operations on
a shared block with a `w`-bit counter in which each operation is performed
by a live handle and the live-handle count always stays below the counter's
capacity `2 ^ w` (the documented caller contract — users are expected not
to overflow), the stored counter equals the number of live handles, is
strictly positive while any handle exists, and the block is deallocated
exactly once — precisely when the last drop takes the counter to zero
(deallocation count 0 while handles remain, 1 once none do). -/
theorem C3_counter_accounting (w : Nat) (ops : List RcOp) (hw : 1 < 2 ^ w)
    (hv : withinWidth w initBlock ops = true) :
    (runBlock w initBlock ops).counter = (runBlock w initBlock ops).handles
    ∧ (0 < (runBlock w initBlock ops).handles →
        0 < (runBlock w initBlock ops).counter)
    ∧ (runBlock w initBlock ops).deallocs
        = if (runBlock w initBlock ops).handles = 0 then 1 else 0 := by
  have h := runBlock_inv w ops initBlock hv rfl hw rfl
  refine ⟨h.1, ?_, h.2.2⟩
  intro hp
  rw [h.1]
  exact hp

/-- Witness for C3 at width 8: construct, clone once, drop both handles. -/
theorem C3_counter_accounting_runs :
    (1 < 2 ^ 8
      ∧ withinWidth 8 initBlock [RcOp.clone, RcOp.drop, RcOp.drop] = true)
    ∧ ((runBlock 8 initBlock [RcOp.clone, RcOp.drop, RcOp.drop]).counter
        = (runBlock 8 initBlock [RcOp.clone, RcOp.drop, RcOp.drop]).handles
      ∧ (0 < (runBlock 8 initBlock [RcOp.clone, RcOp.drop, RcOp.drop]).handles →
          0 < (runBlock 8 initBlock [RcOp.clone, RcOp.drop, RcOp.drop]).counter)
      ∧ (runBlock 8 initBlock [RcOp.clone, RcOp.drop, RcOp.drop]).deallocs
          = if (runBlock 8 initBlock [RcOp.clone, RcOp.drop, RcOp.drop]).handles = 0
            then 1 else 0) :=
  ⟨⟨by decide, by decide⟩,
   C3_counter_accounting 8 [RcOp.clone, RcOp.drop, RcOp.drop]
     (by decide) (by decide)⟩

/-- **C4**: destruction of either cell kind deallocates the block but never
runs the payload's destructor — `Flake`'s drop performs exactly one block
deallocation and no `drop_in_place`; `Rime`'s drop performs no
`drop_in_place` at any counter value, deallocates on the zero transition
(counter 1) and does nothing otherwise; only the explicit `drop_inner`
operation runs the payload's destructor (and frees nothing). -/
theorem C4_no_payload_destructor :
    flakeDropEffects.count Effect.runPayloadDtor = 0
    ∧ flakeDropEffects.count Effect.deallocBlock = 1
    ∧ (∀ c : Nat, ((rimeDrop c).2).count Effect.runPayloadDtor = 0)
    ∧ (rimeDrop 1).2 = [Effect.deallocBlock]
    ∧ (∀ c : Nat, (rimeDrop (c + 2)).2 = [])
    ∧ flakeDropInnerEffects.count Effect.runPayloadDtor = 1
    ∧ flakeDropInnerEffects.count Effect.deallocBlock = 0 := by
  refine ⟨rfl, rfl, ?_, rfl, ?_, rfl, rfl⟩
  · intro c
    unfold rimeDrop
    dsimp only
    split <;> rfl
  · intro c
    rfl

/-- **C5**: for handles of either cell kind, `==` holds exactly when the
payload pointers carry the same address; two cells of either kind
constructed one after the other from equal-but-distinct referents compare
not equal while their dereferenced payload bytes compare equal. -/
theorem C5_identity_equality
    (m : Mem) (src1 src2 len align meta1 meta2 cSize cAlign tAlign : Nat)
    (hlen : 0 < len) (_h1 : src1 + len ≤ m.next) (h2 : src2 + len ≤ m.next)
    (heq : m.readBytes src1 len = m.readBytes src2 len) :
    (∀ a b : Flake, Flake.beq a b = true ↔ a.inner_addr = b.inner_addr)
    ∧ (∀ a b : Rime, Rime.beq a b = true ↔ a.inner_addr = b.inner_addr)
    ∧ Flake.beq (Flake.new m src1 len align meta1).1
        (Flake.new (Flake.new m src1 len align meta1).2 src2 len align meta2).1
        = false
    ∧ (Flake.new (Flake.new m src1 len align meta1).2 src2 len align meta2).2.readBytes
        (Flake.new m src1 len align meta1).1.inner_addr len
      = (Flake.new (Flake.new m src1 len align meta1).2 src2 len align meta2).2.readBytes
          (Flake.new (Flake.new m src1 len align meta1).2 src2 len align meta2).1.inner_addr
          len
    ∧ Rime.beq (Rime.new cSize cAlign m src1 len tAlign meta1).1
        (Rime.new cSize cAlign (Rime.new cSize cAlign m src1 len tAlign meta1).2
          src2 len tAlign meta2).1
        = false
    ∧ (Rime.new cSize cAlign (Rime.new cSize cAlign m src1 len tAlign meta1).2
          src2 len tAlign meta2).2.readBytes
        (Rime.new cSize cAlign m src1 len tAlign meta1).1.inner_addr len
      = (Rime.new cSize cAlign (Rime.new cSize cAlign m src1 len tAlign meta1).2
            src2 len tAlign meta2).2.readBytes
          (Rime.new cSize cAlign (Rime.new cSize cAlign m src1 len tAlign meta1).2
            src2 len tAlign meta2).1.inner_addr len := by
  have hkey : alignUp m.next align + len
      ≤ alignUp (alignUp m.next align + len) align :=
    le_alignUp (alignUp m.next align + len) align
  have hkeyR : alignUp m.next (max cAlign tAlign) + (cSize + len)
      ≤ alignUp (alignUp m.next (max cAlign tAlign) + (cSize + len))
          (max cAlign tAlign) :=
    le_alignUp (alignUp m.next (max cAlign tAlign) + (cSize + len))
      (max cAlign tAlign)
  have hfr2 : alignUp m.next (max cAlign tAlign) + cSize + len
      ≤ alignUp (alignUp m.next (max cAlign tAlign) + (cSize + len))
          (max cAlign tAlign) + cSize := by
    omega
  have hfr1 : src2 + len ≤ alignUp m.next (max cAlign tAlign) + cSize := by
    have hup := le_alignUp m.next (max cAlign tAlign)
    omega
  refine ⟨fun a b => by simp [Flake.beq], fun a b => by simp [Rime.beq],
    ?_, ?_, ?_, ?_⟩
  · show ((alignUp m.next align : Nat)
        == alignUp (alignUp m.next align + len) align) = false
    exact beq_eq_false_iff_ne.mpr (by omega)
  · calc
      (Flake.new (Flake.new m src1 len align meta1).2 src2 len align meta2).2.readBytes
          (Flake.new m src1 len align meta1).1.inner_addr len
        = (Flake.new m src1 len align meta1).2.readBytes (alignUp m.next align) len :=
          flake_new_read_frame (Flake.new m src1 len align meta1).2 src2 len align meta2
            (alignUp m.next align) len hkey
      _ = m.readBytes src1 len := flake_new_read_target m src1 len align meta1
      _ = m.readBytes src2 len := heq
      _ = (Flake.new m src1 len align meta1).2.readBytes src2 len :=
          (flake_new_read_frame m src1 len align meta1 src2 len
            (Nat.le_trans h2 (le_alignUp m.next align))).symm
      _ = (Flake.new (Flake.new m src1 len align meta1).2 src2 len align meta2).2.readBytes
            (alignUp (Flake.new m src1 len align meta1).2.next align) len :=
          (flake_new_read_target (Flake.new m src1 len align meta1).2 src2 len
            align meta2).symm
  · show ((alignUp m.next (max cAlign tAlign) + cSize : Nat)
        == alignUp (alignUp m.next (max cAlign tAlign) + (cSize + len))
            (max cAlign tAlign) + cSize) = false
    exact beq_eq_false_iff_ne.mpr (by omega)
  · calc
      (Rime.new cSize cAlign (Rime.new cSize cAlign m src1 len tAlign meta1).2
          src2 len tAlign meta2).2.readBytes
          (Rime.new cSize cAlign m src1 len tAlign meta1).1.inner_addr len
        = (Rime.new cSize cAlign m src1 len tAlign meta1).2.readBytes
            (alignUp m.next (max cAlign tAlign) + cSize) len :=
          rime_new_read_frame cSize cAlign
            (Rime.new cSize cAlign m src1 len tAlign meta1).2 src2 len tAlign meta2
            (alignUp m.next (max cAlign tAlign) + cSize) len hfr2
      _ = m.readBytes src1 len :=
          rime_new_read_target cSize cAlign m src1 len tAlign meta1
      _ = m.readBytes src2 len := heq
      _ = (Rime.new cSize cAlign m src1 len tAlign meta1).2.readBytes src2 len :=
          (rime_new_read_frame cSize cAlign m src1 len tAlign meta1 src2 len hfr1).symm
      _ = (Rime.new cSize cAlign (Rime.new cSize cAlign m src1 len tAlign meta1).2
            src2 len tAlign meta2).2.readBytes
            (alignUp (Rime.new cSize cAlign m src1 len tAlign meta1).2.next
              (max cAlign tAlign) + cSize) len :=
          (rime_new_read_target cSize cAlign
            (Rime.new cSize cAlign m src1 len tAlign meta1).2 src2 len
            tAlign meta2).symm

/-- Witness for C5: two cells of each kind built one after the other from
the same 2-byte referent at address 0 of `memA` (trivially equal bytes)
compare not equal while their payload bytes stay equal. -/
theorem C5_identity_equality_holds :
    (0 < 2 ∧ 0 + 2 ≤ memA.next ∧ 0 + 2 ≤ memA.next
      ∧ memA.readBytes 0 2 = memA.readBytes 0 2)
    ∧ ((∀ a b : Flake, Flake.beq a b = true ↔ a.inner_addr = b.inner_addr)
      ∧ (∀ a b : Rime, Rime.beq a b = true ↔ a.inner_addr = b.inner_addr)
      ∧ Flake.beq (Flake.new memA 0 2 1 5).1
          (Flake.new (Flake.new memA 0 2 1 5).2 0 2 1 5).1 = false
      ∧ (Flake.new (Flake.new memA 0 2 1 5).2 0 2 1 5).2.readBytes
          (Flake.new memA 0 2 1 5).1.inner_addr 2
        = (Flake.new (Flake.new memA 0 2 1 5).2 0 2 1 5).2.readBytes
            (Flake.new (Flake.new memA 0 2 1 5).2 0 2 1 5).1.inner_addr 2
      ∧ Rime.beq (Rime.new 1 1 memA 0 2 1 5).1
          (Rime.new 1 1 (Rime.new 1 1 memA 0 2 1 5).2 0 2 1 5).1 = false
      ∧ (Rime.new 1 1 (Rime.new 1 1 memA 0 2 1 5).2 0 2 1 5).2.readBytes
          (Rime.new 1 1 memA 0 2 1 5).1.inner_addr 2
        = (Rime.new 1 1 (Rime.new 1 1 memA 0 2 1 5).2 0 2 1 5).2.readBytes
            (Rime.new 1 1 (Rime.new 1 1 memA 0 2 1 5).2 0 2 1 5).1.inner_addr 2) :=
  ⟨⟨by decide, by decide, by decide, rfl⟩,
   C5_identity_equality memA 0 0 2 1 5 5 1 1 1
     (by decide) (by decide) (by decide) rfl⟩

/-- **C6**: every counter family the library provides — plain unsigned
integers, `Cell`-wrapped integers, atomic unsigned integers (each of width
`w` bits) — initialises to 1, and its decrement returns `true` exactly when
the stored count has reached zero after the operation (for the `Cell`
variant, whenever the decrement returns at all rather than panicking). -/
theorem C6_counter_contract (w v u : Nat) (p : Nat × Bool)
    (hw : 1 ≤ w) (hv : v < 2 ^ w) (hu : cellDecrement u = some p) :
    primNew = 1 ∧ cellNew = 1 ∧ atomicNew = 1
    ∧ ((primDecrement w v).2 = true ↔ (primDecrement w v).1 = 0)
    ∧ (p.2 = true ↔ p.1 = 0)
    ∧ ((atomicDecrement w v).2.1 = true ↔ (atomicDecrement w v).1 = 0) := by
  have h2 : 2 ≤ 2 ^ w := by
    calc (2 : Nat) = 2 ^ 1 := rfl
    _ ≤ 2 ^ w := Nat.pow_le_pow_right (by omega) hw
  refine ⟨rfl, rfl, rfl, ?_, ?_, ?_⟩
  · simp [primDecrement]
  · unfold cellDecrement at hu
    by_cases h0 : u = 0
    · rw [if_pos h0] at hu
      exact absurd hu (by simp)
    · rw [if_neg h0] at hu
      obtain rfl : (u - 1, (u - 1 == 0)) = p := Option.some.inj hu
      simp
  · rw [atomicDecrement_flag, atomicDecrement_val, wrapPred w v hv]
    by_cases h1 : v = 1
    · subst h1
      simp
    · rw [if_neg h1]
      by_cases h0 : v = 0
      · subst h0
        simp
        omega
      · rw [if_neg h0]
        simp
        omega

/-- Witness for C6 at width 8: decrementing a plain, `Cell` and atomic
counter holding 1 reaches zero and reports it. -/
theorem C6_counter_contract_holds :
    (1 ≤ 8 ∧ 1 < 2 ^ 8 ∧ cellDecrement 5 = some (4, false))
    ∧ (primNew = 1 ∧ cellNew = 1 ∧ atomicNew = 1
      ∧ ((primDecrement 8 1).2 = true ↔ (primDecrement 8 1).1 = 0)
      ∧ (((4 : Nat), false).2 = true ↔ ((4 : Nat), false).1 = 0)
      ∧ ((atomicDecrement 8 1).2.1 = true ↔ (atomicDecrement 8 1).1 = 0)) :=
  ⟨⟨by decide, by decide, by decide⟩,
   C6_counter_contract 8 1 5 (4, false) (by decide) (by decide) (by decide)⟩

/-- **C7**: the `Cell`-wrapped counters panic (modelled `none`) on
increment at the width's maximum value and on decrement at zero, while the
plain integer counters perform no check at either bound and simply wrap:
increment at the maximum stores 0 and decrement at 0 stores the maximum. -/
theorem C7_checked_unchecked_bounds (w : Nat) :
    cellIncrement w (2 ^ w - 1) = none
    ∧ cellDecrement 0 = none
    ∧ primIncrement w (2 ^ w - 1) = 0
    ∧ (primDecrement w 0).1 = 2 ^ w - 1 := by
  have hpos : 0 < 2 ^ w := Nat.two_pow_pos w
  refine ⟨?_, rfl, ?_, ?_⟩
  · unfold cellIncrement
    rw [if_neg (by omega)]
  · unfold primIncrement
    rw [Nat.sub_add_cancel hpos, Nat.mod_self]
  · unfold primDecrement
    dsimp only
    rw [Nat.zero_add]
    exact Nat.mod_eq_of_lt (by omega)

/-- **C8**: cloning a shared cell yields a handle equal to the original —
the counter pointer, payload pointer and metadata are copied unchanged (the
clone is the very same handle value) — and the only state change is a
single application of the counter strategy's increment to the counter
object at the handle's counter address. -/
theorem C8_clone_identity (inc : Nat → Nat) (m : Mem) (r : Rime) :
    Rime.beq (Rime.clone inc m r).1 r = true
    ∧ (Rime.clone inc m r).1 = r
    ∧ (∀ a : Nat, ((Rime.clone inc m r).2).counters a
        = if a = r.counter_addr then inc (m.counters a) else m.counters a)
    ∧ ((Rime.clone inc m r).2).bytes = m.bytes
    ∧ ((Rime.clone inc m r).2).next = m.next :=
  ⟨by simp [Rime.beq, Rime.clone], rfl, fun a => rfl, rfl, rfl⟩

/-- **C9**: the atomic counters' increment is a relaxed read-modify-write
with no fence; their decrement is a release read-modify-write, and it
executes an acquire fence exactly on the zero transition (when the stored
count reaches zero, equivalently when it reports `true`), ordering prior
releases before the deallocation that follows. -/
theorem C9_atomic_orderings (w v n : Nat) (hw : 1 ≤ w) (hv : v < 2 ^ w) :
    (atomicIncrement w n).2 = ⟨MemOrder.relaxed, []⟩
    ∧ (atomicDecrement w v).2.2.rmwOrder = MemOrder.release
    ∧ ((atomicDecrement w v).2.2.fences = [MemOrder.acquire]
        ↔ (atomicDecrement w v).1 = 0)
    ∧ ((atomicDecrement w v).2.1 = true
        ↔ (atomicDecrement w v).2.2.fences = [MemOrder.acquire]) := by
  have h2 : 2 ≤ 2 ^ w := by
    calc (2 : Nat) = 2 ^ 1 := rfl
    _ ≤ 2 ^ w := Nat.pow_le_pow_right (by omega) hw
  refine ⟨rfl, ?_, ?_, ?_⟩
  · unfold atomicDecrement
    split <;> rfl
  · rw [atomicDecrement_fences, atomicDecrement_val, wrapPred w v hv]
    by_cases h1 : v = 1
    · subst h1
      simp
    · rw [if_neg h1]
      by_cases h0 : v = 0
      · subst h0
        simp
        omega
      · rw [if_neg h0]
        simp
        omega
  · rw [atomicDecrement_flag, atomicDecrement_fences]
    by_cases h1 : v = 1
    · subst h1
      simp
    · rw [if_neg h1, if_neg h1]
      simp

/-- Witness for C9 at width 8: decrement from 1 fences, from 2 it does
not. -/
theorem C9_atomic_orderings_holds :
    (1 ≤ 8 ∧ 1 < 2 ^ 8)
    ∧ ((atomicIncrement 8 3).2 = ⟨MemOrder.relaxed, []⟩
      ∧ (atomicDecrement 8 1).2.2.rmwOrder = MemOrder.release
      ∧ ((atomicDecrement 8 1).2.2.fences = [MemOrder.acquire]
          ↔ (atomicDecrement 8 1).1 = 0)
      ∧ ((atomicDecrement 8 1).2.1 = true
          ↔ (atomicDecrement 8 1).2.2.fences = [MemOrder.acquire])) :=
  ⟨⟨by decide, by decide⟩, C9_atomic_orderings 8 1 3 (by decide) (by decide)⟩

/-- **C10**: the `From<&Rime>` conversion is observably identical to
`clone` — it returns the same handle and produces the same heap, namely the
original handle's pointers with the counter strategy's single increment
applied at the counter address. -/
theorem C10_from_is_clone (inc : Nat → Nat) (m : Mem) (r : Rime) :
    Rime.fromRef inc m r = Rime.clone inc m r
    ∧ (Rime.fromRef inc m r).1 = r
    ∧ (∀ a : Nat, ((Rime.fromRef inc m r).2).counters a
        = if a = r.counter_addr then inc (m.counters a) else m.counters a) :=
  ⟨rfl, rfl, fun _ => rfl⟩

end Kroos
